import Mathlib

/-!
Verification development for the FedLearn repository (FedAvg orchestration in
`main_fedavg.py`, FedAF server in `server/server_fedaf.py`, FedAvg client in
`client/client_fedavg.py`).

Model states (PyTorch `state_dict`s) are embedded as flat lists of rationals;
tensors are lists (or lists of lists) of rationals; PyTorch's `exp`/`log` are
abstracted as function parameters (with positivity hypotheses where needed);
fallible operations (`torch.stack` over a list containing `None`, file loads)
return `Except`/`Option`.
-/

namespace FedLearn

/-- A model parameter vector (a flattened `state_dict`). -/
abbrev Params := List ℚ

/-- The all-zero parameter vector of dimension `d`. -/
def zeroParams (d : Nat) : Params := List.replicate d 0

/-- Component-wise addition of two parameter vectors. -/
def addParams : Params → Params → Params
  | x :: xs, y :: ys => (x + y) :: addParams xs ys
  | _, _ => []

/-- Scale every component of a parameter vector by `c`. -/
def scaleParams (c : ℚ) (p : Params) : Params := p.map (fun x => c * x)

/-- Modelled from the spec: `Server.aggregate` lives in
`server/server_fedavg.py`, which is not part of the sources; the spec
describes FedAvg aggregation as "weighted parameter averaging" with each
client's weight given by the size of its data partition.  Each client model is
scaled by `size_i / total_size` and the scaled models are summed
component-wise. -/
def aggregate (d : Nat) (models : List Params) (sizes : List Nat) : Params :=
  let total : ℚ := (sizes.sum : ℚ)
  (List.zipWith (fun (p : Params) (n : ℕ) => scaleParams ((n : ℚ) / total) p)
    models sizes).foldr addParams (zeroParams d)

theorem length_addParams (p q : Params) :
    (addParams p q).length = min p.length q.length := by
  induction p generalizing q with
  | nil => cases q <;> simp [addParams]
  | cons x xs ih =>
    cases q with
    | nil => simp [addParams]
    | cons y ys => simp [addParams, ih, Nat.succ_min_succ]

theorem getD_addParams (p q : Params) (j : Nat) (hp : j < p.length)
    (hq : j < q.length) :
    (addParams p q).getD j 0 = p.getD j 0 + q.getD j 0 := by
  induction p generalizing q j with
  | nil => simp at hp
  | cons x xs ih =>
    cases q with
    | nil => simp at hq
    | cons y ys =>
      cases j with
      | zero => simp [addParams]
      | succ j =>
        simp only [addParams, List.getD_cons_succ]
        exact ih ys j (by simpa using hp) (by simpa using hq)

theorem getD_zeroParams (d j : Nat) : (zeroParams d).getD j 0 = 0 := by
  induction d generalizing j with
  | zero => simp [zeroParams]
  | succ d ih =>
    cases j with
    | zero => simp [zeroParams, List.replicate_succ]
    | succ j =>
      simp only [zeroParams, List.replicate_succ, List.getD_cons_succ]
      exact ih j

theorem getD_map_of_lt (f : ℚ → ℚ) (p : List ℚ) (j : Nat) (hj : j < p.length) :
    (p.map f).getD j 0 = f (p.getD j 0) := by
  induction p generalizing j with
  | nil => simp at hj
  | cons x xs ih =>
    cases j with
    | zero => simp
    | succ j =>
      simp only [List.map_cons, List.getD_cons_succ]
      exact ih j (by simpa using hj)

/-- Sum of a list of parameter vectors, all of dimension `d`. -/
def sumParams (d : Nat) (l : List Params) : Params :=
  l.foldr addParams (zeroParams d)

theorem mem_zipWith {α β γ : Type} (f : α → β → γ) (l1 : List α) (l2 : List β) :
    ∀ c ∈ List.zipWith f l1 l2, ∃ a b, a ∈ l1 ∧ b ∈ l2 ∧ c = f a b := by
  induction l1 generalizing l2 with
  | nil => intro c hc; simp at hc
  | cons x xs ih =>
    intro c hc
    cases l2 with
    | nil => simp at hc
    | cons y ys =>
      rcases List.mem_cons.mp hc with h | h
      · exact ⟨x, y, by simp, by simp, h⟩
      · obtain ⟨a, b, ha, hb, rfl⟩ := ih ys c h
        exact ⟨a, b, by simp [ha], by simp [hb], rfl⟩

theorem length_sumParams (d : Nat) (l : List Params)
    (hl : ∀ p ∈ l, p.length = d) : (sumParams d l).length = d := by
  induction l with
  | nil => simp [sumParams, zeroParams]
  | cons p ps ih =>
    have hp : p.length = d := hl p (by simp)
    have hps : (sumParams d ps).length = d := ih (fun q hq => hl q (by simp [hq]))
    have : sumParams d (p :: ps) = addParams p (sumParams d ps) := rfl
    rw [this, length_addParams, hp, hps, Nat.min_self]

theorem sum_map_div (l : List ℚ) (f : ℚ → ℚ) (s : ℚ) :
    (l.map (fun x => f x / s)).sum = (l.map f).sum / s := by
  induction l with
  | nil => simp
  | cons x xs ih => simp [ih, add_div]

theorem weighted_sum_getD (t : ℚ) (d j : Nat) (hj : j < d) :
    ∀ (ms : List Params) (ss : List Nat), (∀ p ∈ ms, p.length = d) →
    ((List.zipWith (fun (p : Params) (n : ℕ) => scaleParams ((n : ℚ) / t) p)
        ms ss).foldr addParams (zeroParams d)).getD j 0 =
      (List.zipWith (fun (p : Params) (n : Nat) => (n : ℚ) * p.getD j 0)
        ms ss).sum / t := by
  intro ms
  induction ms with
  | nil =>
    intro ss _
    simp only [List.zipWith_nil_left, List.foldr_nil, List.sum_nil, zero_div]
    exact getD_zeroParams d j
  | cons p ps ih =>
    intro ss hms
    cases ss with
    | nil =>
      simp only [List.zipWith_nil_right, List.foldr_nil, List.sum_nil, zero_div]
      exact getD_zeroParams d j
    | cons n ns =>
      have hp : p.length = d := hms p (by simp)
      have hrest : ((List.zipWith
          (fun (p : Params) (n : ℕ) => scaleParams ((n : ℚ) / t) p)
          ps ns).foldr addParams (zeroParams d)).length = d := by
        refine length_sumParams d _ ?_
        intro q hq
        obtain ⟨a, b, ha, _, rfl⟩ := mem_zipWith _ ps ns q hq
        simpa [scaleParams] using hms a (by simp [ha])
      have hscale : (scaleParams ((n : ℚ) / t) p).getD j 0
          = (n : ℚ) / t * p.getD j 0 := by
        simpa [scaleParams] using
          getD_map_of_lt (fun x => (n : ℚ) / t * x) p j (hp ▸ hj)
      have hslen : (scaleParams ((n : ℚ) / t) p).length = d := by
        simpa [scaleParams] using hp
      simp only [List.zipWith_cons_cons, List.foldr_cons, List.sum_cons]
      rw [getD_addParams _ _ j (by rw [hslen]; exact hj) (by rw [hrest]; exact hj),
        hscale, ih ns (fun q hq => hms q (by simp [hq])), add_div]
      ring

/-- Coordinate-wise closed form of the (spec-modelled) weighted average:
coordinate `j` of the aggregate is `(Σ_i size_i * model_i[j]) / (Σ_i size_i)`. -/
theorem aggregate_getD (d : Nat) (models : List Params) (sizes : List Nat)
    (j : Nat) (hm : ∀ p ∈ models, p.length = d) (hj : j < d) :
    (aggregate d models sizes).getD j 0 =
      (List.zipWith (fun (p : Params) (n : Nat) => (n : ℚ) * p.getD j 0)
        models sizes).sum / (sizes.sum : ℚ) :=
  weighted_sum_getD (sizes.sum : ℚ) d j hj models sizes hm

/-! ## Orchestration loop of `main_fedavg.py`

The orchestrator (`main`) is embedded as a state-passing loop that also emits a
trace of events: reading the server's global state, each client's local
training, the server's aggregation, and the server's evaluation.  External
collaborators (dataset loading, label randomization, SGD training, the random
sampler) are fields of an environment record. -/

/-- A client's local dataset: a list of (feature, label) pairs. -/
abbrev TrainData := List (ℚ × Nat)

/-- The experiment environment: the `ARGS` fields that the claims depend on
together with the external collaborators of `main_fedavg.py`
(`load_data`/`load_client_data`, `randomize_labels`, `random.sample`, and the
client's local SGD loop, which are framework or utility code). -/
structure Env where
  dim : Nat
  numClients : Nat
  numRounds : Nat
  honestyRatio : ℚ
  clientIndices : List (List Nat)
  initialModel : Params
  sampleFn : Nat → Nat → List Nat
  clientData : Nat → TrainData
  randomizeLabels : TrainData → TrainData
  train : Nat → TrainData → Params → Params

/-- Python's `int()` applied to a rational: truncation toward zero. -/
def pyInt (q : ℚ) : Int := if 0 ≤ q then ⌊q⌋ else ⌈q⌉

/-- `num_honest_clients = int(args.honesty_ratio * args.num_clients)`. -/
def numHonest (env : Env) : Nat :=
  (pyInt (env.honestyRatio * env.numClients)).toNat

/-- `honest_clients = random.sample(range(args.num_clients), num_honest_clients)`,
computed once before the round loop. -/
def honestClients (env : Env) : List Nat :=
  env.sampleFn (numHonest env) env.numClients

/-- `is_dishonest = client_id not in honest_clients`. -/
def isDishonest (env : Env) (cid : Nat) : Bool :=
  decide (cid ∉ honestClients env)

/-- The dataset actually used by a client in `train_client`: the loaded client
data, with labels randomized when the client is dishonest. -/
def clientDataUsed (env : Env) (cid : Nat) (dishonest : Bool) : TrainData :=
  if dishonest then env.randomizeLabels (env.clientData cid)
  else env.clientData cid

/-- `train_client`: load the client's data, randomize labels if dishonest,
set the global model on a fresh local model, and run local training. -/
def train_client (env : Env) (cid : Nat) (globalModel : Params)
    (dishonest : Bool) : Params :=
  env.train cid (clientDataUsed env cid dishonest) globalModel

/-- `data_sizes`: `len(client_indices[i])` for `i in range(num_clients)`,
collected before the round loop. -/
def dataSizesList (env : Env) : List Nat :=
  (List.range env.numClients).map (fun i => (env.clientIndices.getD i []).length)

/-- Observable events of the orchestration loop. -/
inductive Event where
  | getGlobal (st : Params)
  | clientTrain (cid : Nat) (dishonest : Bool) (data : TrainData)
      (startState : Params) (result : Params)
  | aggregateCall (models : List Params) (sizes : List Nat) (newState : Params)
  | evaluate (round : Nat) (st : Params)
deriving DecidableEq, Repr

/-- The list of client models returned by the parallel `executor.map` of one
round: each client trains independently from the distributed global state. -/
def clientResults (env : Env) (st : Params) : List Params :=
  (List.range env.numClients).map
    (fun cid => train_client env cid st (isDishonest env cid))

/-- The server state after one round: the aggregate of the round's client
models, weighted by the fixed data sizes. -/
def stepState (env : Env) (st : Params) : Params :=
  aggregate env.dim (clientResults env st) (dataSizesList env)

/-- The events of one federated round (body of the `for round_num` loop):
read the global state, train all clients from it, aggregate, evaluate. -/
def roundEvents (env : Env) (st : Params) (r : Nat) : List Event :=
  Event.getGlobal st ::
    ((List.range env.numClients).map (fun cid =>
      Event.clientTrain cid (isDishonest env cid)
        (clientDataUsed env cid (isDishonest env cid)) st
        (train_client env cid st (isDishonest env cid))))
    ++ [Event.aggregateCall (clientResults env st) (dataSizesList env)
          (stepState env st),
        Event.evaluate r (stepState env st)]

/-- The round loop: `remaining` rounds left, `r` the current round number. -/
def runRounds (env : Env) : Nat → Nat → Params → Params × List Event
  | 0, _, st => (st, [])
  | n + 1, r, st =>
    let rest := runRounds env n (r + 1) (stepState env st)
    (rest.1, roundEvents env st r ++ rest.2)

/-- `main`: rounds are numbered `1 .. num_rounds`. -/
def mainRun (env : Env) : Params × List Event :=
  runRounds env env.numRounds 1 env.initialModel

/-- The event trace of a whole experiment. -/
def mainTrace (env : Env) : List Event := (mainRun env).2

/-- The server's global state at the start of round `k` (0-based). -/
def stateSeq (env : Env) (k : Nat) : Params :=
  (stepState env)^[k] env.initialModel

theorem runRounds_spec (env : Env) (n : Nat) :
    ∀ (r : Nat) (st : Params),
    runRounds env n r st =
      ((stepState env)^[n] st,
        (List.range n).flatMap
          (fun k => roundEvents env ((stepState env)^[k] st) (r + k))) := by
  induction n with
  | zero => intro r st; simp [runRounds]
  | succ n ih =>
    intro r st
    rw [runRounds, ih (r + 1) (stepState env st)]
    refine Prod.ext ?_ ?_
    · simp [Function.iterate_succ_apply]
    · simp only [List.range_succ_eq_map, List.flatMap_cons, List.flatMap_map,
        Function.iterate_zero_apply, Nat.add_zero]
      congr 1
      apply List.flatMap_congr
      intro k _
      rw [Function.iterate_succ_apply]
      congr 1
      omega

theorem mainTrace_spec (env : Env) :
    mainTrace env =
      (List.range env.numRounds).flatMap
        (fun k => roundEvents env (stateSeq env k) (k + 1)) := by
  rw [mainTrace, mainRun, runRounds_spec]
  apply List.flatMap_congr
  intro k _
  rw [stateSeq]
  congr 1
  omega

/-- Extract the arguments of a `server.aggregate` call from an event. -/
def aggArgs : Event → Option (List Params × List Nat)
  | .aggregateCall ms szs _ => some (ms, szs)
  | _ => none

/-- Extract the `data_sizes` argument of a `server.aggregate` call. -/
def aggSizes : Event → Option (List Nat)
  | .aggregateCall _ szs _ => some szs
  | _ => none

/-- Extract the new global state produced by a `server.aggregate` call. -/
def aggNewState : Event → Option Params
  | .aggregateCall _ _ st => some st
  | _ => none

/-- Extract the state read by a `server.get_global_model` call. -/
def getGlobalArg : Event → Option Params
  | .getGlobal st => some st
  | _ => none

/-- Extract the start state a client trains from. -/
def trainStart : Event → Option Params
  | .clientTrain _ _ _ st _ => some st
  | _ => none

theorem roundEvents_filterMap_aggArgs (env : Env) (st : Params) (r : Nat) :
    (roundEvents env st r).filterMap aggArgs =
      [(clientResults env st, dataSizesList env)] := by
  simp [roundEvents, aggArgs, List.filterMap_cons, List.filterMap_append,
    List.filterMap_map, Function.comp]

theorem roundEvents_filterMap_aggSizes (env : Env) (st : Params) (r : Nat) :
    (roundEvents env st r).filterMap aggSizes = [dataSizesList env] := by
  simp [roundEvents, aggSizes, List.filterMap_cons, List.filterMap_append,
    List.filterMap_map, Function.comp]

theorem roundEvents_filterMap_aggNewState (env : Env) (st : Params) (r : Nat) :
    (roundEvents env st r).filterMap aggNewState = [stepState env st] := by
  simp [roundEvents, aggNewState, List.filterMap_cons, List.filterMap_append,
    List.filterMap_map, Function.comp]

theorem roundEvents_filterMap_getGlobalArg (env : Env) (st : Params) (r : Nat) :
    (roundEvents env st r).filterMap getGlobalArg = [st] := by
  simp [roundEvents, getGlobalArg, List.filterMap_cons, List.filterMap_append,
    List.filterMap_map, Function.comp]

theorem filterMap_const_some {α β : Type} (b : β) (l : List α) :
    (l.filterMap fun _ => some b) = List.replicate l.length b := by
  induction l with
  | nil => rfl
  | cons x xs ih => simp [List.filterMap_cons, ih, List.replicate_succ]

theorem roundEvents_filterMap_trainStart (env : Env) (st : Params) (r : Nat) :
    (roundEvents env st r).filterMap trainStart =
      List.replicate env.numClients st := by
  simp only [roundEvents, trainStart, List.filterMap_cons,
    List.filterMap_append, List.filterMap_map, Function.comp,
    List.filterMap_nil, List.append_nil]
  rw [show (trainStart ∘ fun cid =>
        Event.clientTrain cid (isDishonest env cid)
          (clientDataUsed env cid (isDishonest env cid)) st
          (train_client env cid st (isDishonest env cid))) =
      (fun _ : ℕ => some st) from rfl]
  rw [filterMap_const_some, List.length_range]

theorem clientTrain_mem_roundEvents (env : Env) (st : Params) (r : Nat)
    {cid : Nat} {dish : Bool} {data : TrainData} {s res : Params}
    (h : Event.clientTrain cid dish data s res ∈ roundEvents env st r) :
    dish = isDishonest env cid
    ∧ data = clientDataUsed env cid (isDishonest env cid)
    ∧ s = st
    ∧ res = train_client env cid st (isDishonest env cid) := by
  rw [roundEvents, List.mem_append] at h
  rcases h with h | h
  · rw [List.mem_cons] at h
    rcases h with h | h
    · exact Event.noConfusion h
    · rw [List.mem_map] at h
      obtain ⟨c, _, hc⟩ := h
      obtain ⟨h1, h2, h3, h4, h5⟩ := Event.clientTrain.inj hc
      subst h1
      exact ⟨h2.symm, h3.symm, h4.symm, h5.symm⟩
  · rw [List.mem_cons] at h
    rcases h with h | h
    · exact Event.noConfusion h
    · rw [List.mem_singleton] at h
      exact Event.noConfusion h

theorem stateSeq_succ (env : Env) (k : Nat) :
    stateSeq env (k + 1) = stepState env (stateSeq env k) := by
  rw [stateSeq, stateSeq, Function.iterate_succ_apply']

theorem mainTrace_filterMap (env : Env) {β : Type} (g : Event → Option β) :
    (mainTrace env).filterMap g =
      (List.range env.numRounds).flatMap
        (fun k => (roundEvents env (stateSeq env k) (k + 1)).filterMap g) := by
  rw [mainTrace_spec, List.filterMap_flatMap]

theorem flatMap_singleton_eq_map {α β : Type} (f : α → β) (l : List α) :
    (l.flatMap fun a => [f a]) = l.map f :=
  (List.map_eq_flatMap f l).symm

/-- C1: each round the orchestrator calls `server.aggregate` exactly once,
with the list of all clients' trained state dicts for that round and the list
of per-client partition sizes; and the (spec-modelled) aggregation is weighted
parameter averaging, coordinate `j` of the result being
`(Σ_i size_i * model_i[j]) / (Σ_i size_i)`. -/
theorem fedavg_aggregate_each_round (env : Env) (d : Nat) :
    ((mainTrace env).filterMap aggArgs =
      (List.range env.numRounds).map (fun k =>
        ((List.range env.numClients).map (fun cid =>
            train_client env cid (stateSeq env k) (isDishonest env cid)),
          (List.range env.numClients).map
            (fun i => (env.clientIndices.getD i []).length))))
    ∧ ∀ (models : List Params) (sizes : List Nat) (j : Nat),
        (∀ p ∈ models, p.length = d) → j < d →
        (aggregate d models sizes).getD j 0 =
          (List.zipWith (fun (p : Params) (n : Nat) => (n : ℚ) * p.getD j 0)
            models sizes).sum / (sizes.sum : ℚ) := by
  constructor
  · rw [mainTrace_filterMap,
      List.flatMap_congr (fun k _ =>
        roundEvents_filterMap_aggArgs env (stateSeq env k) (k + 1)),
      flatMap_singleton_eq_map]
    rfl
  · intro models sizes j hm hj
    exact aggregate_getD d models sizes j hm hj

/-- C3: the experiment trace consists of exactly `num_rounds` consecutive
blocks; block `k` first reads the server's global state, then trains every
client `0 .. num_clients-1` from that same state, then aggregates the
resulting client models, then evaluates, in this order and with no other
events. -/
theorem round_step_order (env : Env) :
    mainTrace env =
      (List.range env.numRounds).flatMap (fun k =>
        Event.getGlobal (stateSeq env k) ::
          ((List.range env.numClients).map (fun cid =>
            Event.clientTrain cid (isDishonest env cid)
              (clientDataUsed env cid (isDishonest env cid)) (stateSeq env k)
              (train_client env cid (stateSeq env k) (isDishonest env cid))))
          ++ [Event.aggregateCall (clientResults env (stateSeq env k))
                (dataSizesList env) (stateSeq env (k + 1)),
              Event.evaluate (k + 1) (stateSeq env (k + 1))]) := by
  rw [mainTrace_spec]
  apply List.flatMap_congr
  intro k _
  rw [roundEvents, stateSeq_succ]

/-- C4: the honest-client set is sampled once before the round loop, with
`int(honesty_ratio * num_clients)` elements (given that the sampler returns a
sample of the requested size), and in every round of the whole trace a
client's labels are randomized before training exactly when the client is not
in that fixed set. -/
theorem honesty_flag_fixed (env : Env)
    (hs : (env.sampleFn (numHonest env) env.numClients).length = numHonest env) :
    (honestClients env).length =
        (pyInt (env.honestyRatio * (env.numClients : ℚ))).toNat
    ∧ ∀ cid dish data st res,
        Event.clientTrain cid dish data st res ∈ mainTrace env →
          dish = decide (cid ∉ honestClients env)
          ∧ data = (if cid ∈ honestClients env then env.clientData cid
                    else env.randomizeLabels (env.clientData cid)) := by
  constructor
  · exact hs
  · intro cid dish data st res hmem
    rw [mainTrace_spec] at hmem
    rw [List.mem_flatMap] at hmem
    obtain ⟨k, _, hk⟩ := hmem
    obtain ⟨h1, h2, _, _⟩ := clientTrain_mem_roundEvents env (stateSeq env k)
      (k + 1) hk
    subst h1
    subst h2
    refine ⟨rfl, ?_⟩
    by_cases hin : cid ∈ honestClients env <;>
      simp [clientDataUsed, isDishonest, hin]

/-- C5: the `data_sizes` list passed to `server.aggregate` is the same in
every round: the list of partition-index-set lengths computed once before the
round loop. -/
theorem partition_sizes_fixed (env : Env) :
    (mainTrace env).filterMap aggSizes =
      List.replicate env.numRounds
        ((List.range env.numClients).map
          (fun i => (env.clientIndices.getD i []).length)) := by
  rw [mainTrace_filterMap,
    List.flatMap_congr (fun k _ =>
      roundEvents_filterMap_aggSizes env (stateSeq env k) (k + 1)),
    flatMap_singleton_eq_map]
  have h : dataSizesList env =
      (List.range env.numClients).map
        (fun i => (env.clientIndices.getD i []).length) := rfl
  rw [← h, List.map_const', List.length_range]

/-- C7: the global model state is only read (via `get_global_model`) once per
round, clients train from that same read state, and the state is replaced
exactly once per round, namely by the result of `server.aggregate`; the state
sequence is driven solely by `aggregate`, so client training never mutates the
server's copy. -/
theorem global_state_server_owned (env : Env) :
    ((mainTrace env).filterMap getGlobalArg
        = (List.range env.numRounds).map (stateSeq env))
    ∧ ((mainTrace env).filterMap trainStart
        = (List.range env.numRounds).flatMap
            (fun k => List.replicate env.numClients (stateSeq env k)))
    ∧ ((mainTrace env).filterMap aggNewState
        = (List.range env.numRounds).map (fun k => stateSeq env (k + 1)))
    ∧ ∀ k, stateSeq env (k + 1)
        = aggregate env.dim (clientResults env (stateSeq env k))
            (dataSizesList env) := by
  refine ⟨?_, ?_, ?_, ?_⟩
  · rw [mainTrace_filterMap,
      List.flatMap_congr (fun k _ =>
        roundEvents_filterMap_getGlobalArg env (stateSeq env k) (k + 1)),
      flatMap_singleton_eq_map]
  · rw [mainTrace_filterMap]
    exact List.flatMap_congr (fun k _ =>
      roundEvents_filterMap_trainStart env (stateSeq env k) (k + 1))
  · rw [mainTrace_filterMap,
      List.flatMap_congr (fun k _ =>
        roundEvents_filterMap_aggNewState env (stateSeq env k) (k + 1)),
      flatMap_singleton_eq_map]
    exact List.map_congr_left (fun k _ => (stateSeq_succ env k).symm)
  · intro k
    rw [stateSeq_succ]
    rfl

/-! ## FedAF server (`server/server_fedaf.py`)

`compute_T`, the loss computation of `train_model`, and the control flow of
`server_update`.  The softmax exponential and the tensor logarithm are
abstract function parameters `ex` and `log`; positivity of `ex` is assumed
where the claims need it. -/

/-- A synthetic-data sample identifier (stands for an image tensor). -/
abbrev Sample := Nat

/-- A synthetic dataset: a list of (sample, label) pairs. -/
abbrev SynData := List (Sample × Nat)

/-- `class_counts[c]`: number of samples of the synthetic dataset with
label `c`. -/
def classCount (ds : SynData) (c : Nat) : Nat :=
  (ds.filter (fun p => p.2 == c)).length

/-- `class_logits_sum[c]`: the sum of the model's output logits over the
samples with label `c`, starting from `torch.zeros(num_classes)`. -/
def classLogitsSum (model : Sample → List ℚ) (ds : SynData)
    (numClasses c : Nat) : List ℚ :=
  ((ds.filter (fun p => p.2 == c)).map (fun p => model p.1)).foldr addParams
    (zeroParams numClasses)

/-- `.mean(dim=0)` of a 1-D tensor. -/
def meanQ (v : List ℚ) : ℚ := v.sum / (v.length : ℚ)

/-- `softmax(v, dim=0)` with exponential `ex`. -/
def softmax (ex : ℚ → ℚ) (v : List ℚ) : List ℚ :=
  v.map (fun x => ex x / (v.map ex).sum)

/-- One entry of the `t_list` built by `compute_T`: for a class with samples,
`softmax(avg_logit / temperature, dim=0).mean(dim=0)`; otherwise `None`. -/
def compute_T_entry (ex : ℚ → ℚ) (model : Sample → List ℚ) (ds : SynData)
    (numClasses : Nat) (temperature : ℚ) (c : Nat) : Option ℚ :=
  if 0 < classCount ds c then
    some (meanQ (softmax ex
      (((classLogitsSum model ds numClasses c).map
          (fun x => x / (classCount ds c : ℚ))).map
        (fun x => x / temperature))))
  else none

/-- `compute_T`: build the per-class list and `torch.stack` it; `torch.stack`
raises when the list contains a `None` entry. -/
def compute_T (ex : ℚ → ℚ) (model : Sample → List ℚ) (ds : SynData)
    (numClasses : Nat) (temperature : ℚ) : Except String (List ℚ) :=
  let t_list := (List.range numClasses).map
    (compute_T_entry ex model ds numClasses temperature)
  if t_list.all Option.isSome then Except.ok (t_list.filterMap id)
  else Except.error "stack expects each tensor to be equal size"

theorem length_classLogitsSum (model : Sample → List ℚ) (ds : SynData)
    (numClasses c : Nat) (hlen : ∀ x, (model x).length = numClasses) :
    (classLogitsSum model ds numClasses c).length = numClasses := by
  refine length_sumParams numClasses _ ?_
  intro p hp
  obtain ⟨q, _, rfl⟩ := List.mem_map.mp hp
  exact hlen q.1

theorem softmax_sum_eq_one (ex : ℚ → ℚ) (v : List ℚ) (hex : ∀ q, 0 < ex q)
    (hv : v ≠ []) : (softmax ex v).sum = 1 := by
  have hS : 0 < (v.map ex).sum := by
    refine List.sum_pos _ ?_ ?_
    · intro a ha
      obtain ⟨x, _, rfl⟩ := List.mem_map.mp ha
      exact hex x
    · simpa using hv
  rw [softmax, sum_map_div]
  exact div_self hS.ne'

theorem meanQ_softmax (ex : ℚ → ℚ) (v : List ℚ) (hex : ∀ q, 0 < ex q)
    (hv : v ≠ []) : meanQ (softmax ex v) = 1 / (v.length : ℚ) := by
  rw [meanQ, softmax_sum_eq_one ex v hex hv, softmax, List.length_map]

theorem filterMap_id_all_isSome {α : Type} (l : List (Option α))
    (h : l.all Option.isSome) : l.length = (l.filterMap id).length := by
  induction l with
  | nil => rfl
  | cons a as ih =>
    rcases a with _ | a
    · simp at h
    · have h2 := (Bool.and_eq_true _ _).mp h
      simp [List.filterMap_cons, ih h2.2]

theorem filterMap_id_replicate_some {α : Type} (n : Nat) (a : α) :
    (List.replicate n (some a)).filterMap id = List.replicate n a := by
  induction n with
  | zero => rfl
  | succ n ih => simp [List.replicate_succ, List.filterMap_cons, ih]

/-- C8: for every class with at least one sample, `compute_T` produces the
mean of an entire softmax probability vector of length `num_classes`, which is
`1 / num_classes` whatever the model outputs and the temperature are; the
stacked result is therefore a vector of `num_classes` identical scalars, not a
matrix of per-class distributions. -/
theorem compute_T_value_degenerate (ex : ℚ → ℚ) (model : Sample → List ℚ)
    (ds : SynData) (C : Nat) (temperature : ℚ) (hex : ∀ q, 0 < ex q)
    (hlen : ∀ x, (model x).length = C) (hC : 0 < C) :
    (∀ c, 0 < classCount ds c →
        compute_T_entry ex model ds C temperature c = some (1 / (C : ℚ)))
    ∧ ∀ t, compute_T ex model ds C temperature = Except.ok t →
        t = List.replicate C (1 / (C : ℚ)) := by
  have hentry : ∀ c, 0 < classCount ds c →
      compute_T_entry ex model ds C temperature c = some (1 / (C : ℚ)) := by
    intro c hc
    rw [compute_T_entry, if_pos hc]
    have hw : (((classLogitsSum model ds C c).map
        (fun x => x / (classCount ds c : ℚ))).map
          (fun x => x / temperature)).length = C := by
      rw [List.length_map, List.length_map, length_classLogitsSum _ _ _ _ hlen]
    have hne : (((classLogitsSum model ds C c).map
        (fun x => x / (classCount ds c : ℚ))).map
          (fun x => x / temperature)) ≠ [] := by
      intro h
      rw [h] at hw
      simp at hw
      omega
    rw [meanQ_softmax ex _ hex hne, hw]
  refine ⟨hentry, ?_⟩
  intro t ht
  rw [compute_T] at ht
  by_cases hall : ((List.range C).map
      (compute_T_entry ex model ds C temperature)).all Option.isSome
  · rw [if_pos hall] at ht
    have hsome : ∀ c ∈ List.range C,
        compute_T_entry ex model ds C temperature c = some (1 / (C : ℚ)) := by
      intro c hcr
      have hmem := List.all_eq_true.mp hall _ (List.mem_map_of_mem _ hcr)
      have hpos : 0 < classCount ds c := by
        by_contra hneg
        rw [compute_T_entry, if_neg hneg] at hmem
        simp at hmem
      exact hentry c hpos
    have hrepl : (List.range C).map
        (compute_T_entry ex model ds C temperature) =
        List.replicate C (some (1 / (C : ℚ))) := by
      refine List.eq_replicate_iff.mpr ⟨by simp, ?_⟩
      intro b hb
      obtain ⟨c, hcr, rfl⟩ := List.mem_map.mp hb
      exact hsome c hcr
    rw [hrepl, filterMap_id_replicate_some] at ht
    exact (Except.ok.inj ht).symm
  · rw [if_neg hall] at ht
    exact Except.noConfusion ht

/-- C9: if some class below `num_classes` has no sample in the synthetic
dataset, `compute_T` puts `None` in the per-class list and the `torch.stack`
raises, so `compute_T` never returns; and whenever it does return, every
per-class entry is a real value, so the `is not None` filtering in
`train_model` is never reached with a `None` entry. -/
theorem compute_T_missing_class_raises (ex : ℚ → ℚ) (model : Sample → List ℚ)
    (ds : SynData) (C : Nat) (temperature : ℚ) :
    (∀ c, c < C → classCount ds c = 0 →
        compute_T ex model ds C temperature =
          Except.error "stack expects each tensor to be equal size")
    ∧ ∀ t, compute_T ex model ds C temperature = Except.ok t →
        ∀ c, c < C → (compute_T_entry ex model ds C temperature c).isSome := by
  constructor
  · intro c hc hzero
    have hnone : compute_T_entry ex model ds C temperature c = none := by
      rw [compute_T_entry, if_neg (by omega)]
    have hmem : (none : Option ℚ) ∈ (List.range C).map
        (compute_T_entry ex model ds C temperature) := by
      rw [← hnone]
      exact List.mem_map_of_mem _ (List.mem_range.mpr hc)
    have hall : ¬ ((List.range C).map
        (compute_T_entry ex model ds C temperature)).all Option.isSome = true := by
      intro hall
      have := List.all_eq_true.mp hall _ hmem
      simp at this
    rw [compute_T, if_neg hall]
  · intro t ht c hc
    rw [compute_T] at ht
    by_cases hall : ((List.range C).map
        (compute_T_entry ex model ds C temperature)).all Option.isSome
    · exact List.all_eq_true.mp hall _
        (List.mem_map_of_mem _ (List.mem_range.mpr hc))
    · rw [if_neg hall] at ht
      exact Except.noConfusion ht

/-- `F.kl_div(input, target, reduction='batchmean')` on explicit (already
broadcast) rows, `input` given in log space: the pointwise value is
`target * (log target - input)`, summed and divided by the number of rows of
`input` (`input.size(0)`). -/
def klDivBM (log : ℚ → ℚ) (inputRows targetRows : List (List ℚ)) : ℚ :=
  (List.zipWith (fun ir tr =>
      (List.zipWith (fun i t => t * (log t - i)) ir tr).sum)
    inputRows targetRows).sum / (inputRows.length : ℚ)

set_option linter.unusedVariables false in
/-- The combined loss computed for one batch inside an epoch of
`train_model`: `rc_smooth` is computed as in the source (and, as in the
source, not used afterwards); `t_tensor[i] is not None` is always true for an
entry of a stacked tensor, so `valid_indices` filters on a constantly-true
test; the two `F.kl_div` calls broadcast the 1-D `t_tensor_filtered` against
the rows of `rc_tensor_filtered`. -/
def train_model_batch_loss (log : ℚ → ℚ) (numClasses : Nat)
    (rc_tensor : List (List ℚ)) (t_tensor : List ℚ)
    (loss_ce lambda_glob epsilon : ℚ) : ℚ :=
  let rc_smooth := rc_tensor.map (List.map (fun x => x + epsilon))
  let valid_indices := (List.range numClasses).filter (fun _ => true)
  let rc_tensor_filtered := valid_indices.map (fun i => rc_tensor.getD i [])
  let t_tensor_filtered := valid_indices.map (fun i => t_tensor.getD i 0)
  let kl_div1 := klDivBM log (rc_tensor_filtered.map (List.map log))
    (List.replicate rc_tensor_filtered.length t_tensor_filtered)
  let kl_div2 := klDivBM log
    (List.replicate rc_tensor_filtered.length (t_tensor_filtered.map log))
    rc_tensor_filtered
  let loss_lgkm := (kl_div1 + kl_div2) / 2
  loss_ce + lambda_glob * loss_lgkm

/-- The values `train_model` takes the logarithm of: every element of
`rc_tensor_filtered` (for `rc_tensor_filtered.log()`) and every element of
`t_tensor_filtered` (for `t_tensor_filtered.log()`). -/
def train_model_log_args (numClasses : Nat) (rc_tensor : List (List ℚ))
    (t_tensor : List ℚ) : List ℚ :=
  let valid_indices := (List.range numClasses).filter (fun _ => true)
  let rc_tensor_filtered := valid_indices.map (fun i => rc_tensor.getD i [])
  let t_tensor_filtered := valid_indices.map (fun i => t_tensor.getD i 0)
  rc_tensor_filtered.flatten ++ t_tensor_filtered

/-- `KL(p ‖ q) = Σ_i p_i (log p_i - log q_i)`: the spec-level KL divergence
between two distributions given as equal-length vectors. -/
def klSpec (log : ℚ → ℚ) (p q : List ℚ) : ℚ :=
  (List.zipWith (fun a b => a * (log a - log b)) p q).sum

theorem zipWith_replicate_right {α β γ : Type} (f : α → β → γ) (b : β) :
    ∀ l : List α, List.zipWith f l (List.replicate l.length b) =
      l.map (fun a => f a b) := by
  intro l
  induction l with
  | nil => rfl
  | cons x xs ih => simp [List.replicate_succ, List.zipWith_cons_cons, ih]

theorem zipWith_replicate_left {α β γ : Type} (f : α → β → γ) (a : α) :
    ∀ l : List β, List.zipWith f (List.replicate l.length a) l =
      l.map (fun b => f a b) := by
  intro l
  induction l with
  | nil => rfl
  | cons x xs ih => simp [List.replicate_succ, List.zipWith_cons_cons, ih]

theorem map_getD_range (l : List ℚ) :
    (List.range l.length).map (fun i => l.getD i 0) = l := by
  induction l with
  | nil => rfl
  | cons a as ih =>
    rw [List.length_cons, List.range_succ_eq_map, List.map_cons, List.map_map]
    have h : ((fun i => (a :: as).getD i 0) ∘ Nat.succ) =
        fun i => as.getD i 0 := rfl
    rw [h, ih]
    rfl

theorem sum_map_add (l : List ℕ) (f g : ℕ → ℚ) :
    (l.map (fun x => f x + g x)).sum = (l.map f).sum + (l.map g).sum := by
  induction l with
  | nil => simp
  | cons x xs ih => simp [ih]; ring

theorem filter_true_eq (l : List ℕ) : (l.filter fun _ => true) = l := by
  induction l with
  | nil => rfl
  | cons x xs ih => simp [List.filter_cons, ih]

/-- Closed form of the per-batch combined loss of `train_model`. -/
theorem train_model_batch_loss_eval (log : ℚ → ℚ) (C : Nat)
    (rc : List (List ℚ)) (t : List ℚ) (ce lam eps : ℚ) (ht : t.length = C) :
    train_model_batch_loss log C rc t ce lam eps =
      ce + lam * ((((List.range C).map (fun c =>
          klSpec log t (rc.getD c []) + klSpec log (rc.getD c []) t)).sum)
        / (2 * (C : ℚ))) := by
  rw [train_model_batch_loss]
  simp only [filter_true_eq]
  have htF : (List.range C).map (fun i => t.getD i 0) = t := by
    rw [← ht, map_getD_range]
  rw [htF]
  have hlen1 : ((List.range C).map (fun i => rc.getD i [])).length = C := by
    simp
  have hkl1 : klDivBM log
      (((List.range C).map (fun i => rc.getD i [])).map (List.map log))
      (List.replicate ((List.range C).map (fun i => rc.getD i [])).length t) =
      ((List.range C).map (fun c => klSpec log t (rc.getD c []))).sum
        / (C : ℚ) := by
    rw [klDivBM]
    have hrepl : List.replicate
        ((List.range C).map (fun i => rc.getD i [])).length t =
        List.replicate
          ((((List.range C).map (fun i => rc.getD i [])).map
            (List.map log)).length) t := by
      simp
    rw [hrepl, zipWith_replicate_right, List.map_map, List.map_map,
      List.length_map, List.length_map, List.length_range]
    congr 1
    refine congrArg List.sum (List.map_congr_left ?_)
    intro c _
    simp only [Function.comp]
    rw [klSpec]
    rw [List.zipWith_map_left, List.zipWith_comm]
  have hkl2 : klDivBM log
      (List.replicate ((List.range C).map (fun i => rc.getD i [])).length
        (t.map log))
      ((List.range C).map (fun i => rc.getD i [])) =
      ((List.range C).map (fun c => klSpec log (rc.getD c []) t)).sum
        / (C : ℚ) := by
    rw [klDivBM]
    rw [zipWith_replicate_left, List.length_replicate, hlen1, List.map_map]
    congr 1
    refine congrArg List.sum (List.map_congr_left ?_)
    intro c _
    simp only [Function.comp]
    rw [klSpec]
    rw [List.zipWith_map_left, List.zipWith_comm]
  rw [hkl1, hkl2, div_add_div_same, sum_map_add, div_div]
  rw [mul_comm (C : ℚ) 2]

/-- C2: given that `train_model` is reachable at all (`compute_T` returned,
so by C9 every class has a sample), the classes the loss ranges over are
exactly the classes present in the synthetic data, and the per-batch combined
loss is `loss_ce + lambda_glob * loss_lgkm` where `loss_lgkm` is the
symmetrized KL divergence `(KL(T ‖ Rc) + KL(Rc ‖ T)) / 2`, averaged over
those classes. -/
theorem lgkm_is_symmetrized_kl (log : ℚ → ℚ) (C : Nat) (rc : List (List ℚ))
    (t : List ℚ) (ce lam eps : ℚ) (ex : ℚ → ℚ) (model : Sample → List ℚ)
    (ds : SynData) (temperature : ℚ)
    (hok : compute_T ex model ds C temperature = Except.ok t) :
    ((List.range C).filter (fun c => decide (0 < classCount ds c)) =
        List.range C)
    ∧ train_model_batch_loss log C rc t ce lam eps =
        ce + lam * ((((List.range C).map (fun c =>
            klSpec log t (rc.getD c []) + klSpec log (rc.getD c []) t)).sum)
          / (2 * (C : ℚ))) := by
  have hsome := (compute_T_missing_class_raises ex model ds C temperature).2
    t hok
  constructor
  · refine List.filter_eq_self.mpr ?_
    intro c hcr
    have hc := List.mem_range.mp hcr
    have := hsome c hc
    rw [compute_T_entry] at this
    by_cases hpos : 0 < classCount ds c
    · simpa using hpos
    · rw [if_neg hpos] at this
      simp at this
  · have ht : t.length = C := by
      rw [compute_T] at hok
      by_cases hall : ((List.range C).map
          (compute_T_entry ex model ds C temperature)).all Option.isSome
      · rw [if_pos hall] at hok
        have := filterMap_id_all_isSome _ hall
        rw [← Except.ok.inj hok, ← this, List.length_map, List.length_range]
      · rw [if_neg hall] at hok
        exact Except.noConfusion hok
    exact train_model_batch_loss_eval log C rc t ce lam eps ht

/-- C10: the `rc_smooth = rc_tensor + epsilon` smoothing has no effect on the
loss (the loss is the same for any epsilon), and when a filtered `rc_tensor`
row contains a zero probability, `0` is among the values the two KL terms
take the logarithm of, despite the smoothing guard. -/
theorem rc_smoothing_unused (log : ℚ → ℚ) (C : Nat) (rc : List (List ℚ))
    (t : List ℚ) (ce lam : ℚ) :
    (∀ e1 e2 : ℚ, train_model_batch_loss log C rc t ce lam e1 =
        train_model_batch_loss log C rc t ce lam e2)
    ∧ ∀ c, c < C → (0 : ℚ) ∈ rc.getD c [] →
        (0 : ℚ) ∈ train_model_log_args C rc t := by
  constructor
  · intro e1 e2
    rfl
  · intro c hc h0
    show (0 : ℚ) ∈
      (((List.range C).filter (fun _ => true)).map
        (fun i => rc.getD i [])).flatten ++
      ((List.range C).filter (fun _ => true)).map (fun i => t.getD i 0)
    refine List.mem_append.mpr (Or.inl ?_)
    rw [List.mem_flatten]
    refine ⟨rc.getD c [], ?_, h0⟩
    refine List.mem_map.mpr ⟨c, ?_, rfl⟩
    rw [filter_true_eq]
    exact List.mem_range.mpr hc

/-! ## `server_update` control flow (`server/server_fedaf.py`) -/

/-- What the server finds at a client's per-round synthetic-data path: the
file may be absent (`os.path.exists` false), fail to load (`torch.load`
raises), or hold a dict whose `images`/`labels` keys may be missing. -/
inductive SynFile where
  | missing
  | unreadable
  | loaded (hasKeys : Bool) (images : List Nat) (labels : List Nat)
deriving DecidableEq, Repr

/-- The contribution the aggregation loop of `server_update` keeps for one
client: `none` when the client is skipped (file missing, load error, missing
keys, or zero images — `data_dict['images'].size(0) > 0` fails). -/
def loadContribution : SynFile → Option (List Nat × List Nat)
  | .missing => none
  | .unreadable => none
  | .loaded hasKeys imgs labs =>
      if hasKeys && decide (0 < imgs.length) then some (imgs, labs) else none

/-- The per-client synthetic data collected by `server_update`: it attempts
every client id `0 .. num_partitions - 1` and keeps the valid loads. -/
def gatherSynthetic (files : Nat → SynFile) (numPartitions : Nat) :
    List (List Nat × List Nat) :=
  (List.range numPartitions).filterMap (fun cid => loadContribution (files cid))

/-- Observable outcome of `server_update`: whether `train_model` ran, whether
a model save was attempted, and the returned value (if any). -/
structure UpdateOutcome where
  ranTraining : Bool
  attemptedSave : Bool
  ret : Option (List (Option Unit))
deriving DecidableEq, Repr

/-- Control-flow skeleton of `server_update`: gather the clients' synthetic
data; with no valid data, skip the model update and return
`[None] * num_classes`; with data but no valid `Rc` entry, return without a
value; otherwise train, evaluate and save. -/
def server_update (files : Nat → SynFile) (Rc : List (Option (List ℚ)))
    (numPartitions numClasses : Nat) : UpdateOutcome :=
  let contribs := gatherSynthetic files numPartitions
  if contribs.isEmpty then
    { ranTraining := false, attemptedSave := false,
      ret := some (List.replicate numClasses none) }
  else if (Rc.filterMap id).isEmpty then
    { ranTraining := false, attemptedSave := false, ret := none }
  else
    { ranTraining := true, attemptedSave := true, ret := none }

/-- C6: a client's file contributes iff it exists, loads, has both keys and a
positive number of images — all other clients are skipped; and when no client
contributes, `server_update` performs no training and no save and returns a
list of `num_classes` `None` entries. -/
theorem server_update_no_valid_data (files : Nat → SynFile)
    (Rc : List (Option (List ℚ))) (numPartitions numClasses : Nat) :
    (∀ f : SynFile, (loadContribution f).isSome ↔
        ∃ imgs labs, f = SynFile.loaded true imgs labs ∧ 0 < imgs.length)
    ∧ ((∀ cid, cid < numPartitions → loadContribution (files cid) = none) →
        server_update files Rc numPartitions numClasses =
          { ranTraining := false, attemptedSave := false,
            ret := some (List.replicate numClasses none) }) := by
  constructor
  · intro f
    cases f with
    | missing => simp [loadContribution]
    | unreadable => simp [loadContribution]
    | loaded hasKeys imgs labs =>
      by_cases h : hasKeys && decide (0 < imgs.length)
      · rw [loadContribution, if_pos h]
        have h2 := (Bool.and_eq_true _ _).mp h
        simp only [Option.isSome_some, true_iff]
        exact ⟨imgs, labs, by rw [h2.1], of_decide_eq_true h2.2⟩
      · rw [loadContribution, if_neg h]
        constructor
        · intro hcon
          exact absurd hcon (by simp)
        · intro hcon
          obtain ⟨imgs2, labs2, heq, hpos⟩ := hcon
          obtain ⟨h1, h2, h3⟩ := SynFile.loaded.inj heq
          subst h1
          subst h2
          rw [Bool.true_and] at h
          exact absurd (decide_eq_true hpos) h
  · intro hall
    have hempty : gatherSynthetic files numPartitions = [] := by
      rw [gatherSynthetic, List.filterMap_eq_nil_iff]
      intro cid hcid
      exact hall cid (List.mem_range.mp hcid)
    simp [server_update, hempty]

/-! ## Concrete instances for the witnesses -/

/-- A concrete two-client, one-round environment. -/
def envEx : Env where
  dim := 1
  numClients := 2
  numRounds := 1
  honestyRatio := 1 / 2
  clientIndices := [[0, 1, 2], [3]]
  initialModel := [0]
  sampleFn := fun _ _ => [0]
  clientData := fun cid => [(1, cid)]
  randomizeLabels := fun d => d.map (fun p => (p.1, 0))
  train := fun cid d _ => List.replicate (cid + d.length) 1

theorem fedavg_aggregate_each_round_witness :
    (∀ p ∈ [[(1 : ℚ), 2], [3, 4]], p.length = 2) ∧ 0 < 2 ∧
    (aggregate 2 [[(1 : ℚ), 2], [3, 4]] [1, 3]).getD 0 0 =
      (List.zipWith (fun (p : Params) (n : Nat) => (n : ℚ) * p.getD 0 0)
        [[(1 : ℚ), 2], [3, 4]] [1, 3]).sum / (([1, 3] : List Nat).sum : ℚ) :=
  ⟨by decide, by decide,
    (fedavg_aggregate_each_round envEx 2).2 [[(1 : ℚ), 2], [3, 4]] [1, 3] 0
      (by decide) (by decide)⟩

theorem honesty_flag_fixed_witness :
    (envEx.sampleFn (numHonest envEx) envEx.numClients).length =
        numHonest envEx
    ∧ Event.clientTrain 1 true [((1 : ℚ), 0)] [0] [1, 1] ∈ mainTrace envEx
    ∧ (true = decide ((1 : Nat) ∉ honestClients envEx)
        ∧ [((1 : ℚ), 0)] = (if (1 : Nat) ∈ honestClients envEx
            then envEx.clientData 1
            else envEx.randomizeLabels (envEx.clientData 1))) := by
  have hnum : numHonest envEx = 1 := by norm_num [numHonest, pyInt, envEx]
  have hs : (envEx.sampleFn (numHonest envEx) envEx.numClients).length =
      numHonest envEx := by rw [hnum]; rfl
  exact ⟨hs, by decide,
    (honesty_flag_fixed envEx hs).2 1 true [((1 : ℚ), 0)] [0] [1, 1]
      (by decide)⟩

theorem compute_T_value_degenerate_witness :
    0 < classCount [(0, 0), (1, 1)] 0
    ∧ compute_T_entry (fun _ => 1) (fun _ => [0, 0]) [(0, 0), (1, 1)] 2 1 0 =
        some (1 / (2 : ℚ))
    ∧ ([1 / 2, 1 / 2] : List ℚ) = List.replicate 2 (1 / (2 : ℚ)) :=
  ⟨by decide,
    (compute_T_value_degenerate (fun _ => 1) (fun _ => [0, 0])
      [(0, 0), (1, 1)] 2 1 (fun _ => one_pos) (fun _ => rfl) (by decide)).1 0
      (by decide),
    (compute_T_value_degenerate (fun _ => 1) (fun _ => [0, 0])
      [(0, 0), (1, 1)] 2 1 (fun _ => one_pos) (fun _ => rfl) (by decide)).2
      [1 / 2, 1 / 2]
      (by norm_num [compute_T, compute_T_entry, classCount, classLogitsSum,
        meanQ, softmax, addParams, zeroParams, List.range_succ, List.filter,
        List.filterMap_cons, show ((0 : Nat) == 1) = false from rfl,
        show ((1 : Nat) == 1) = true from rfl,
        show ((0 : Nat) == 0) = true from rfl,
        show ((1 : Nat) == 0) = false from rfl])⟩

theorem compute_T_missing_class_raises_witness :
    (1 < 2 ∧ classCount [(0, 0)] 1 = 0)
    ∧ compute_T (fun _ => 1) (fun _ => [0, 0]) [(0, 0)] 2 1 =
        Except.error "stack expects each tensor to be equal size" :=
  ⟨⟨by decide, by decide⟩,
    (compute_T_missing_class_raises (fun _ => 1) (fun _ => [0, 0]) [(0, 0)]
      2 1).1 1 (by decide) (by decide)⟩

theorem lgkm_is_symmetrized_kl_witness :
    compute_T (fun _ => 1) (fun _ => [0, 0]) [(0, 0), (1, 1)] 2 1 =
      Except.ok [1 / 2, 1 / 2]
    ∧ (((List.range 2).filter
          (fun c => decide (0 < classCount [(0, 0), (1, 1)] c)) =
        List.range 2)
      ∧ train_model_batch_loss id 2 [[1 / 2, 1 / 2], [1 / 2, 1 / 2]]
          [1 / 2, 1 / 2] 1 2 (1 / 1000000) =
        1 + 2 * ((((List.range 2).map (fun c =>
            klSpec id [1 / 2, 1 / 2]
              (([[1 / 2, 1 / 2], [1 / 2, 1 / 2]] : List (List ℚ)).getD c [])
            + klSpec id
              (([[1 / 2, 1 / 2], [1 / 2, 1 / 2]] : List (List ℚ)).getD c [])
              [1 / 2, 1 / 2])).sum) / (2 * ((2 : Nat) : ℚ)))) :=
  ⟨by norm_num [compute_T, compute_T_entry, classCount, classLogitsSum,
      meanQ, softmax, addParams, zeroParams, List.range_succ, List.filter,
      List.filterMap_cons, show ((0 : Nat) == 1) = false from rfl,
      show ((1 : Nat) == 1) = true from rfl,
      show ((0 : Nat) == 0) = true from rfl,
      show ((1 : Nat) == 0) = false from rfl],
    lgkm_is_symmetrized_kl id 2 [[1 / 2, 1 / 2], [1 / 2, 1 / 2]]
      [1 / 2, 1 / 2] 1 2 (1 / 1000000) (fun _ => 1) (fun _ => [0, 0])
      [(0, 0), (1, 1)] 1
      (by norm_num [compute_T, compute_T_entry, classCount, classLogitsSum,
        meanQ, softmax, addParams, zeroParams, List.range_succ, List.filter,
        List.filterMap_cons, show ((0 : Nat) == 1) = false from rfl,
        show ((1 : Nat) == 1) = true from rfl,
        show ((0 : Nat) == 0) = true from rfl,
        show ((1 : Nat) == 0) = false from rfl])⟩

theorem rc_smoothing_unused_witness :
    (0 < 2 ∧ (0 : ℚ) ∈ (([[0, 1], [1, 0]] : List (List ℚ)).getD 0 []))
    ∧ (0 : ℚ) ∈ train_model_log_args 2 [[0, 1], [1, 0]] [1 / 2, 1 / 2] :=
  ⟨⟨by decide, by decide⟩,
    (rc_smoothing_unused id 2 [[0, 1], [1, 0]] [1 / 2, 1 / 2] 1 1).2 0
      (by decide) (by decide)⟩

theorem server_update_no_valid_data_witness :
    ((loadContribution (SynFile.loaded true [7] [0])).isSome ↔
      ∃ imgs labs, SynFile.loaded true [7] [0] = SynFile.loaded true imgs labs
        ∧ 0 < imgs.length)
    ∧ ((∀ cid, cid < 3 →
          loadContribution ((fun _ => SynFile.missing) cid) = none)
      ∧ server_update (fun _ => SynFile.missing) [none, none] 3 2 =
          { ranTraining := false, attemptedSave := false,
            ret := some (List.replicate 2 none) }) :=
  ⟨(server_update_no_valid_data (fun _ => SynFile.missing) [none, none] 3 2).1
      (SynFile.loaded true [7] [0]),
    by decide,
    (server_update_no_valid_data (fun _ => SynFile.missing) [none, none]
      3 2).2 (by decide)⟩

end FedLearn
